import Mathlib

/-!
# Verification of the pxt-teachablemachine external model control system

Shallow embedding of the repository's core components:

* `TM.ModelManager` — the registry/facade of `src/simx/src/services/modelManager.ts`
  (`registerModel`, `unregisterModel`, `startModel`, `stopModel`, `stopAllModels`,
  `loadModel`, `deleteModel`).
* `TM.Component` — the per-model control capability / cooperative loop driver of
  `src/components/ImageModel.tsx` (given as `src/unnamed/part_004`; the pose model
  `part_006`/`part_007` has the same control structure).
* the message bridge of `src/extension.ts` (`src/unnamed/part_001`) and the
  MakeCode extension side `src/custom.ts` — frame filtering, handshake dispatch.
* the JSON wire codec used by `postExtensionMessage` (JSON.stringify + UTF-8
  encode) and `handleSimxMessage` (UTF-8 decode + JSON.parse) for prediction
  batches.
* the model-list handling of `src/simx/src/App.tsx` (`addItem`, model-name
  derivation from the source URL).
-/

namespace TM

/-! ## Model manager (registry / facade)

From `src/simx/src/services/modelManager.ts`.

The registry is generic over `ModelControls` objects supplied by the model
components (`{start, stop, isRunning, isLoaded}`). We model a capability as a
small state record; `startThrows` / `stopThrows` say whether invoking the
corresponding method throws, and `startCalls` / `stopCalls` count invocations so
that "the registry did not invoke `start()`" is expressible. The net effect of a
failed `start()` is `running = false` (the component's `handleStart` catch
branch resets the running flag), of a successful one `running = true`. -/

structure Capability where
  loaded : Bool
  running : Bool
  startThrows : Bool
  stopThrows : Bool
  startCalls : Nat
  stopCalls : Nat
deriving DecidableEq, Repr

/-- `controls.start()`: returns the capability state afterwards and whether the
call completed without throwing. -/
def Capability.startRun (c : Capability) : Capability × Bool :=
  if c.startThrows then
    ({ c with startCalls := c.startCalls + 1, running := false }, false)
  else
    ({ c with startCalls := c.startCalls + 1, running := true }, true)

/-- `controls.stop()`: returns the capability state afterwards and whether the
call completed without throwing. A throwing stop leaves the running flag as the
capability had it. -/
def Capability.stopRun (c : Capability) : Capability × Bool :=
  if c.stopThrows then
    ({ c with stopCalls := c.stopCalls + 1 }, false)
  else
    ({ c with stopCalls := c.stopCalls + 1, running := false }, true)

/-- `ListItem` of `src/components/types.ts` (`src/unnamed/part_005`): the model
descriptor held in a registry entry. -/
structure ListItem where
  id : String
  modelType : String
  url : String
deriving DecidableEq, Repr

/-- `ModelInstance` of `modelManager.ts`: a descriptor plus its controls. -/
structure ModelInstance where
  item : ListItem
  controls : Capability
deriving DecidableEq, Repr

/-- Observable effects of manager operations: listener (membership snapshot)
notifications, and the load-request / delete-request callbacks. -/
inductive MEvent where
  | listenersNotified
  | loadRequested (url : String)
  | deleteRequested (id : String)
deriving DecidableEq, Repr

/-- State of the `ModelManager` class: the insertion-ordered id → instance map
(a TS `Map`), plus whether the optional load/delete callbacks are registered. -/
structure ModelManager where
  models : List (String × ModelInstance)
  hasLoadCallback : Bool
  hasDeleteCallback : Bool
deriving DecidableEq, Repr

namespace ModelManager

/-- `this.models.get(modelId)`. -/
def getModel (m : ModelManager) (modelId : String) : Option ModelInstance :=
  (m.models.find? (fun p => p.1 = modelId)).map (·.2)

/-- `Map.set`: overwrite in place if the key is present, else append. -/
def setEntry : List (String × ModelInstance) → String → ModelInstance →
    List (String × ModelInstance)
  | [], k, v => [(k, v)]
  | (k', v') :: rest, k, v =>
    if k' = k then (k, v) :: rest else (k', v') :: setEntry rest k v

/-- Replace the controls of the entry for `modelId` (the in-place mutation the
TS methods perform on `model.controls`). -/
def updateControls (m : ModelManager) (modelId : String) (c : Capability) :
    ModelManager :=
  { m with
    models := m.models.map (fun p => if p.1 = modelId then (p.1, { p.2 with controls := c }) else p) }

/-- `registerModel(item, controls)`: insert/overwrite by `item.id`, then notify
listeners with a map snapshot. -/
def registerModel (m : ModelManager) (item : ListItem) (controls : Capability) :
    ModelManager × List MEvent :=
  ({ m with models := setEntry m.models item.id ⟨item, controls⟩ },
   [MEvent.listenersNotified])

/-- `unregisterModel(modelId)`: delete by key, then notify listeners. -/
def unregisterModel (m : ModelManager) (modelId : String) :
    ModelManager × List MEvent :=
  ({ m with models := m.models.filter (fun p => p.1 ≠ modelId) },
   [MEvent.listenersNotified])

/-- `startModel(modelId)`: not found → `false`; not loaded → `false`; already
running → `true` without invoking `start()`; else invoke `start()`, catching a
throw as `false`. -/
def startModel (m : ModelManager) (modelId : String) : ModelManager × Bool :=
  match m.getModel modelId with
  | none => (m, false)
  | some inst =>
    if !inst.controls.loaded then (m, false)
    else if inst.controls.running then (m, true)
    else
      let r := inst.controls.startRun
      (m.updateControls modelId r.1, r.2)

/-- `stopModel(modelId)`: not found → `false`; not running → `true` (no-op);
else invoke `stop()`, catching a throw as `false`. -/
def stopModel (m : ModelManager) (modelId : String) : ModelManager × Bool :=
  match m.getModel modelId with
  | none => (m, false)
  | some inst =>
    if !inst.controls.running then (m, true)
    else
      let r := inst.controls.stopRun
      (m.updateControls modelId r.1, r.2)

/-- `stopAllModels()`: for every entry, if its controls report running, invoke
`stop()` inside a per-entry try/catch. Total: a throwing stop on one entry does
not affect the iteration over the others and no error escapes. -/
def stopAllModels (m : ModelManager) : ModelManager :=
  { m with
    models := m.models.map (fun p =>
      if p.2.controls.running then (p.1, { p.2 with controls := p.2.controls.stopRun.1 }) else p) }

/-- `loadModel(url)`: fires the load-request callback (when registered) and
resolves `true` unconditionally. -/
def loadModel (m : ModelManager) (url : String) :
    ModelManager × Bool × List MEvent :=
  (m, true, if m.hasLoadCallback then [MEvent.loadRequested url] else [])

/-- `deleteModel(modelId)`: not found → `false`. Otherwise, stop first when
running (this `controls.stop()` call is not wrapped in try/catch, so a throw
propagates: `Except.error`), then fire the delete-request callback (when
registered) and return `true`. The entry is not removed from the map here;
removal is the delete-request subscriber's responsibility. -/
def deleteModel (m : ModelManager) (modelId : String) :
    ModelManager × Except Unit (Bool × List MEvent) :=
  match m.getModel modelId with
  | none => (m, Except.ok (false, []))
  | some inst =>
    if inst.controls.running then
      let r := inst.controls.stopRun
      let m' := m.updateControls modelId r.1
      if r.2 then
        (m', Except.ok (true,
          if m.hasDeleteCallback then [MEvent.deleteRequested modelId] else []))
      else
        (m', Except.error ())
    else
      (m, Except.ok (true,
        if m.hasDeleteCallback then [MEvent.deleteRequested modelId] else []))

/-- `getAllModels()` keys, i.e. the ids present in the registry list. -/
def listIds (m : ModelManager) : List String := m.models.map (·.1)

/-- `isRunning` as the facade reports it: the capability's own flag, `false`
for an absent id. -/
def isRunning (m : ModelManager) (modelId : String) : Bool :=
  match m.getModel modelId with
  | none => false
  | some inst => inst.controls.running

end ModelManager

/-! ## Control capability / loop driver (model component)

From `src/components/ImageModel.tsx` (`src/unnamed/part_004`); the pose model
(`part_006` / `part_007`) has the identical control structure. The capability
contract registered with the manager (README `src/unnamed/part_008`):
`isRunning: () => runningRef.current`,
`isLoaded: () => modelLoaded && modelRef.current !== null`.

Component state fields mirror the React refs/state:
`modelLoaded` (state flag, set to `true` at the *start* of the load effect,
reset on load failure), `modelRef` (whether the model ref is non-null, set on
load success), `pendingLoad` (a load promise is in flight), `running`
(`runningRef.current`), `webcam` / `animationFrame` (whether those refs are
non-null), `canvasContainer` (container ref non-null), `startFails` (whether
webcam setup would throw inside `handleStart`), `labels` (the prediction
labels with their held confidence values, in metadata order — the React state
and `labelsRef.current` are assigned together, so one field models both), and
`pendingClear` (the clearing `setLabels` updater of `handleStop` has been
enqueued but not yet run by a re-render). Confidence values are in
thousandths (`Number(p.toFixed(3))` at 3-decimal precision). -/

/-- A `{name, confidence}` prediction entry; `confidence` in thousandths. -/
structure Prediction where
  name : String
  confidence : Nat
deriving DecidableEq, Repr

structure Component where
  modelLoaded : Bool
  modelRef : Bool
  pendingLoad : Bool
  running : Bool
  webcam : Bool
  animationFrame : Bool
  canvasContainer : Bool
  startFails : Bool
  labels : List Prediction
  pendingClear : Bool
deriving DecidableEq, Repr

namespace Component

/-- Initial mount: all refs null, all flags false. -/
def init : Component :=
  { modelLoaded := false, modelRef := false, pendingLoad := false,
    running := false, webcam := false, animationFrame := false,
    canvasContainer := true, startFails := false, labels := [],
    pendingClear := false }

/-- `isLoaded: () => modelLoaded && modelRef.current !== null`. -/
def isLoaded (c : Component) : Bool := c.modelLoaded && c.modelRef

/-- `isRunning: () => runningRef.current`. -/
def isRunning (c : Component) : Bool := c.running

/-- Body of the load effect: `if (modelLoaded || !canvasContainerRef.current)
return; setModelLoaded(true); ... loadModel()` — marks loaded early and starts
the asynchronous load. -/
def loadBegin (c : Component) : Component :=
  if c.modelLoaded || !c.canvasContainer then c
  else { c with modelLoaded := true, pendingLoad := true }

/-- Resolution of the load promise: labels set from metadata with confidence 0,
model ref set. -/
def loadSuccess (c : Component) (metadataLabels : List String) : Component :=
  if c.pendingLoad then
    { c with modelRef := true, pendingLoad := false,
             labels := metadataLabels.map (fun n => ⟨n, 0⟩) }
  else c

/-- Rejection of the load promise: `.catch` resets `modelLoaded` for retry. -/
def loadFailure (c : Component) : Component :=
  if c.pendingLoad then { c with modelLoaded := false, pendingLoad := false }
  else c

/-- `handleStart`: guarded by `modelLoaded && canvasContainerRef.current`;
sets the running flag, acquires the webcam and schedules the animation loop;
the catch branch on a setup failure resets the running flag and clears the
container. -/
def handleStart (c : Component) : Component :=
  if c.modelLoaded && c.canvasContainer then
    if c.startFails then
      { c with running := false, webcam := false }
    else
      { c with running := true, webcam := true, animationFrame := true }
  else c

/-- `handleStop`: clears the running flag, cancels a pending animation frame,
stops and releases the webcam, then calls `setLabels` with the clearing
updater and finally `sendPredictions("image", labelsRef.current)`. The
updater — which zeroes every confidence and assigns `labelsRef.current` — is
only *enqueued*: React runs state updaters at the next re-render, after the
synchronous body (the preceding `setRunning(false)` already left a pending
update on the fiber, so no eager evaluation of the updater happens either).
The single emitted batch therefore carries the held pre-stop labels; the
queued clearing is recorded in `pendingClear`. Returns the new state and the
list of emitted batches. -/
def handleStop (c : Component) : Component × List (List Prediction) :=
  ({ c with running := false, animationFrame := false, webcam := false,
            pendingClear := true },
   [c.labels])

/-- The next React re-render after `handleStop`: runs the queued `setLabels`
updater, zeroing every confidence value and syncing `labelsRef.current` with
the cleared array. -/
def rerender (c : Component) : Component :=
  if c.pendingClear then
    { c with labels := c.labels.map (fun p => { p with confidence := 0 }),
             pendingClear := false }
  else c

/-- `startModel` of the manager, acting on the registered capability of this
component: absent/not-loaded → no effect; already running → no effect (no
second loop); else `handleStart`. -/
def managerStart (c : Component) : Component :=
  if !c.isLoaded then c
  else if c.isRunning then c
  else c.handleStart

/-- Lifecycle operations. `uiStart` is the Start button invoking `handleStart`
directly; `mgrStart` is a start mediated by the manager's `startModel`;
`stop` is `handleStop` (button or manager). `setStartFails` lets the
environment choose whether the next webcam setup throws. -/
inductive Op where
  | loadBegin
  | loadSuccess (metadataLabels : List String)
  | loadFailure
  | uiStart
  | mgrStart
  | stop
  | setStartFails (b : Bool)
deriving DecidableEq, Repr

def step (c : Component) : Op → Component
  | Op.loadBegin => c.loadBegin
  | Op.loadSuccess ls => c.loadSuccess ls
  | Op.loadFailure => c.loadFailure
  | Op.uiStart => c.handleStart
  | Op.mgrStart => c.managerStart
  | Op.stop => (c.handleStop).1
  | Op.setStartFails b => { c with startFails := b }

def run (c : Component) (ops : List Op) : Component :=
  ops.foldl step c

/-- An operation sequence is manager-mediated when it never invokes the
component's `handleStart` directly (every start goes through `startModel`). -/
def ManagerMediated (ops : List Op) : Prop := Op.uiStart ∉ ops

/-- The internal invariant tying the running flag to the load state, together
with the auxiliary facts about the load machinery that make it inductive:
running implies both `modelLoaded` and a non-null model ref; the model ref is
null while not loaded; and a pending load implies `modelLoaded` with a still
null model ref. -/
def invB (c : Component) : Bool :=
  (!c.running || (c.modelLoaded && c.modelRef)) &&
  (c.modelLoaded || !c.modelRef) &&
  (!c.pendingLoad || (c.modelLoaded && !c.modelRef))

def Inv (c : Component) : Prop := invB c = true

theorem inv_init : Inv init := rfl

theorem inv_step (c : Component) (op : Op) (hop : op ≠ Op.uiStart)
    (h : Inv c) : Inv (step c op) := by
  obtain ⟨ml, mr, pl, run, wc, af, cc, sf, labs, pc⟩ := c
  unfold Inv at h ⊢
  cases op with
  | loadBegin =>
    simp only [step, loadBegin, invB, apply_ite Component.running,
      apply_ite Component.modelLoaded, apply_ite Component.modelRef,
      apply_ite Component.pendingLoad] at h ⊢
    revert h; revert ml mr pl run cc; decide
  | loadSuccess ls =>
    simp only [step, loadSuccess, invB, apply_ite Component.running,
      apply_ite Component.modelLoaded, apply_ite Component.modelRef,
      apply_ite Component.pendingLoad] at h ⊢
    revert h; revert ml mr pl run; decide
  | loadFailure =>
    simp only [step, loadFailure, invB, apply_ite Component.running,
      apply_ite Component.modelLoaded, apply_ite Component.modelRef,
      apply_ite Component.pendingLoad] at h ⊢
    revert h; revert ml mr pl run; decide
  | uiStart => exact absurd rfl hop
  | mgrStart =>
    simp only [step, managerStart, handleStart, isLoaded, isRunning, invB,
      apply_ite Component.running, apply_ite Component.modelLoaded,
      apply_ite Component.modelRef, apply_ite Component.pendingLoad] at h ⊢
    revert h; revert ml mr pl run cc sf; decide
  | stop =>
    simp only [step, handleStop, invB] at h ⊢
    revert h; revert ml mr pl run; decide
  | setStartFails b =>
    simpa only [step, invB] using h

theorem inv_run (c : Component) (ops : List Op) (hops : ManagerMediated ops)
    (h : Inv c) : Inv (run c ops) := by
  induction ops generalizing c with
  | nil => exact h
  | cons op rest ih =>
    have hop : op ≠ Op.uiStart := fun he => hops (he ▸ List.mem_cons_self _ _)
    have hrest : ManagerMediated rest := fun hm => hops (List.mem_cons_of_mem _ hm)
    exact ih _ hrest (inv_step c op hop h)

end Component

/-! ## Wire codec

The sender (`postExtensionMessage` in `src/extension.ts`, `src/unnamed/part_001`;
`control.simmessages.send` with `Buffer.fromUTF8(JSON.stringify(msg))` in
`src/custom.ts`) serializes a message with `JSON.stringify` and UTF-8 encodes
the text; the receiver (`handleSimxMessage` in `src/custom.ts`) UTF-8 decodes
and applies `JSON.parse`. UTF-8 encoding of text and its decoding are mutually
inverse, so the payload is modelled as the character sequence of the JSON text.

Confidence values are produced as `Number(probability.toFixed(3))`: a float
equal to `k/1000` for some `k ≤ 1000`. We represent such a value by its count
of thousandths `k`. `JSON.stringify` prints the shortest decimal string that
parses back to the same float, which for `k/1000` is `"0"`, `"1"`, or `"0."`
followed by the three digits of `k` with trailing zeros removed; `JSON.parse`
maps that string back to `k/1000`. -/

namespace Wire

/-- Opening / closing brace characters of the JSON text. -/
def lbrace : Char := '\x7b'

def rbrace : Char := '\x7d'

/-- Lower-case hex digit, as `JSON.stringify` emits in `\u00xx` escapes. -/
def hexDigitChar (n : Nat) : Char :=
  if n < 10 then Char.ofNat (48 + n) else Char.ofNat (87 + n)

/-- How `JSON.stringify` renders one character inside a string literal:
`"` and `\` get a backslash escape, the five named control characters get their
short escapes, the remaining control characters below `0x20` get `\u00xx`, and
everything else is emitted literally. -/
def escapeChar (ch : Char) : List Char :=
  if ch = '"' then ['\\', '"']
  else if ch = '\\' then ['\\', '\\']
  else if ch.toNat = 8 then ['\\', 'b']
  else if ch.toNat = 9 then ['\\', 't']
  else if ch.toNat = 10 then ['\\', 'n']
  else if ch.toNat = 12 then ['\\', 'f']
  else if ch.toNat = 13 then ['\\', 'r']
  else if ch.toNat < 32 then
    ['\\', 'u', '0', '0', hexDigitChar (ch.toNat / 16), hexDigitChar (ch.toNat % 16)]
  else [ch]

def escapeString (s : List Char) : List Char := s.flatMap escapeChar

/-- A JSON string literal: quote, escaped body, quote. -/
def encodeJSONString (s : String) : List Char :=
  '"' :: escapeString s.data ++ ['"']

/-- Value of one hex digit, as `JSON.parse` reads `\uXXXX` escapes. -/
def hexVal (c : Char) : Option Nat :=
  if '0' ≤ c ∧ c ≤ '9' then some (c.toNat - 48)
  else if 'a' ≤ c ∧ c ≤ 'f' then some (c.toNat - 87)
  else if 'A' ≤ c ∧ c ≤ 'F' then some (c.toNat - 55)
  else none

/-- `JSON.parse` scanning of a string literal body after the opening quote:
returns the decoded content and the input after the closing quote. -/
def parseStringBody : List Char → Option (List Char × List Char)
  | [] => none
  | c :: rest =>
    if c = '"' then some ([], rest)
    else if c = '\\' then
      match rest with
      | [] => none
      | e :: rest' =>
        if e = '"' then (parseStringBody rest').map (fun p => ('"' :: p.1, p.2))
        else if e = '\\' then (parseStringBody rest').map (fun p => ('\\' :: p.1, p.2))
        else if e = '/' then (parseStringBody rest').map (fun p => ('/' :: p.1, p.2))
        else if e = 'b' then (parseStringBody rest').map (fun p => (Char.ofNat 8 :: p.1, p.2))
        else if e = 't' then (parseStringBody rest').map (fun p => (Char.ofNat 9 :: p.1, p.2))
        else if e = 'n' then (parseStringBody rest').map (fun p => (Char.ofNat 10 :: p.1, p.2))
        else if e = 'f' then (parseStringBody rest').map (fun p => (Char.ofNat 12 :: p.1, p.2))
        else if e = 'r' then (parseStringBody rest').map (fun p => (Char.ofNat 13 :: p.1, p.2))
        else if e = 'u' then
          match rest' with
          | h1 :: h2 :: h3 :: h4 :: rest'' =>
            match hexVal h1, hexVal h2, hexVal h3, hexVal h4 with
            | some a, some b, some c3, some d =>
              (parseStringBody rest'').map
                (fun p => (Char.ofNat (((a * 16 + b) * 16 + c3) * 16 + d) :: p.1, p.2))
            | _, _, _, _ => none
          | _ => none
        else none
    else (parseStringBody rest).map (fun p => (c :: p.1, p.2))
  termination_by l => l.length
  decreasing_by all_goals simp_arith [List.length]

/-- Parse a full JSON string literal including the opening quote. -/
def parseJSONString : List Char → Option (List Char × List Char)
  | '"' :: rest => parseStringBody rest
  | _ => none

def digitChar (n : Nat) : Char := Char.ofNat (48 + n)

/-- Remove the trailing `'0'` characters of a digit run. -/
def stripZeros (l : List Char) : List Char :=
  (l.reverse.dropWhile (· = '0')).reverse

/-- The text `JSON.stringify` emits for the float `k/1000` (`k ≤ 1000`): the
shortest decimal representation. -/
def encodeNum (k : Nat) : List Char :=
  if k = 1000 then ['1']
  else if k = 0 then ['0']
  else '0' :: '.' :: stripZeros [digitChar (k / 100), digitChar (k / 10 % 10), digitChar (k % 10)]

def digitsVal (l : List Char) : Nat :=
  l.foldl (fun a c => 10 * a + (c.toNat - 48)) 0

/-- `JSON.parse` for a (non-negative, non-exponent) number, yielding its value
in thousandths; fractions longer than three digits are beyond the 3-decimal
domain and are rejected. -/
def parseNum (l : List Char) : Option (Nat × List Char) :=
  let ds := l.takeWhile Char.isDigit
  let r := l.dropWhile Char.isDigit
  if ds.isEmpty then none
  else if r.head? = some '.' then
    let r' := r.tail
    let fs := r'.takeWhile Char.isDigit
    let r'' := r'.dropWhile Char.isDigit
    if fs.isEmpty then none
    else if fs.length ≤ 3 then
      some (digitsVal ds * 1000 + digitsVal fs * 10 ^ (3 - fs.length), r'')
    else none
  else some (digitsVal ds * 1000, r)

/-- `modelType` of a `PredictionMessage` (`src/custom.ts`): image, pose, sound. -/
inductive MType where
  | image
  | pose
  | sound
deriving DecidableEq, Repr

def MType.name : MType → String
  | MType.image => "image"
  | MType.pose => "pose"
  | MType.sound => "sound"

def MType.fromString : String → Option MType
  | "image" => some MType.image
  | "pose" => some MType.pose
  | "sound" => some MType.sound
  | _ => none

/-- The prediction batch message
`{type:"predictions", modelType, predictions:[{name, confidence}, ...]}`. -/
structure PredictionsMsg where
  modelType : MType
  predictions : List TM.Prediction
deriving DecidableEq, Repr

/-- `JSON.stringify` of one `{name, confidence}` prediction object. -/
def encodePred (p : TM.Prediction) : List Char :=
  lbrace :: "\"name\":".data ++ encodeJSONString p.name ++
  ",\"confidence\":".data ++ encodeNum p.confidence ++ [rbrace]

/-- The comma-separated array elements. -/
def encodePreds : List TM.Prediction → List Char
  | [] => []
  | [p] => encodePred p
  | p :: rest => encodePred p ++ ',' :: encodePreds rest

/-- `JSON.stringify` of the whole predictions message (keys in insertion
order, no whitespace). -/
def encodeMsg (m : PredictionsMsg) : List Char :=
  lbrace :: "\"type\":\"predictions\",\"modelType\":".data ++
  encodeJSONString m.modelType.name ++
  ",\"predictions\":[".data ++ encodePreds m.predictions ++ [']', rbrace]

/-- Require an exact literal run at the head of the input. -/
def expectLit : List Char → List Char → Option (List Char)
  | [], l => some l
  | _ :: _, [] => none
  | c :: cs, x :: xs => if x = c then expectLit cs xs else none

/-- Parse one prediction object. -/
def parsePred (l : List Char) : Option (TM.Prediction × List Char) := do
  let l ← expectLit (lbrace :: "\"name\":".data) l
  let (name, l) ← parseJSONString l
  let l ← expectLit ",\"confidence\":".data l
  let (k, l) ← parseNum l
  let l ← expectLit [rbrace] l
  return (⟨String.mk name, k⟩, l)

/-- Parse the prediction array elements up to and including the closing `]`.
The fuel argument bounds the number of elements (the caller passes the input
length). -/
def parsePredsAux : Nat → List Char → Option (List TM.Prediction × List Char)
  | _, [] => none
  | fuel, c :: l =>
    if c = ']' then some ([], l)
    else
      match fuel with
      | 0 => none
      | fuel + 1 =>
        match parsePred (c :: l) with
        | none => none
        | some (p, l') =>
          match l' with
          | [] => none
          | c' :: l'' =>
            if c' = ',' then (parsePredsAux fuel l'').map (fun q => (p :: q.1, q.2))
            else if c' = ']' then some ([p], l'')
            else none

/-- `JSON.parse` of a predictions message followed by the field accesses
`handleSimxMessage` performs (`msg.type`, `msg.modelType`,
`msg.predictions[i].name/.confidence`), restricted to the wire grammar. -/
def decodeMsg (s : List Char) : Option PredictionsMsg := do
  let l ← expectLit (lbrace :: "\"type\":\"predictions\",\"modelType\":".data) s
  let (mt, l) ← parseJSONString l
  let mty ← MType.fromString (String.mk mt)
  let l ← expectLit ",\"predictions\":[".data l
  let (ps, l) ← parsePredsAux l.length l
  let l ← expectLit [rbrace] l
  if l = [] then return ⟨mty, ps⟩ else none

/-- The full sender side: JSON text of the batch (the UTF-8 byte encoding of
this text is the `Frame.data` payload). -/
def encodeWire (m : PredictionsMsg) : String := String.mk (encodeMsg m)

/-- The full receiver side: decode the payload text and parse. -/
def decodeWire (s : String) : Option PredictionsMsg := decodeMsg s.data

theorem expectLit_append (cs rest : List Char) : expectLit cs (cs ++ rest) = some rest := by
  induction cs with
  | nil => rfl
  | cons c cs ih => simp [expectLit, ih]

theorem hexVal_hexDigitChar : ∀ n < 16, hexVal (hexDigitChar n) = some n := by decide

theorem parseStringBody_escape (s rest : List Char) :
    parseStringBody (escapeString s ++ '"' :: rest) = some (s, rest) := by
  induction s with
  | nil =>
    show parseStringBody ('"' :: rest) = some ([], rest)
    rw [parseStringBody.eq_def]; simp
  | cons c s ih =>
    have hexpand : escapeString (c :: s) = escapeChar c ++ escapeString s := by
      simp [escapeString]
    rw [hexpand, List.append_assoc]
    by_cases h1 : c = '"'
    · subst h1
      show parseStringBody ('\\' :: '"' :: (escapeString s ++ '"' :: rest)) = _
      rw [parseStringBody.eq_def]; simp [ih]
    by_cases h2 : c = '\\'
    · subst h2
      show parseStringBody ('\\' :: '\\' :: (escapeString s ++ '"' :: rest)) = _
      rw [parseStringBody.eq_def]; simp [ih]
    by_cases h3 : c.toNat = 8
    · have hc : Char.ofNat 8 = c := by rw [← h3, Char.ofNat_toNat]
      have he : escapeChar c = ['\\', 'b'] := by simp [escapeChar, h1, h2, h3]
      rw [he]
      show parseStringBody ('\\' :: 'b' :: (escapeString s ++ '"' :: rest)) = _
      rw [parseStringBody.eq_def]; simp [ih]
      exact hc
    by_cases h4 : c.toNat = 9
    · have hc : Char.ofNat 9 = c := by rw [← h4, Char.ofNat_toNat]
      have he : escapeChar c = ['\\', 't'] := by simp [escapeChar, h1, h2, h3, h4]
      rw [he]
      show parseStringBody ('\\' :: 't' :: (escapeString s ++ '"' :: rest)) = _
      rw [parseStringBody.eq_def]; simp [ih]
      exact hc
    by_cases h5 : c.toNat = 10
    · have hc : Char.ofNat 10 = c := by rw [← h5, Char.ofNat_toNat]
      have he : escapeChar c = ['\\', 'n'] := by simp [escapeChar, h1, h2, h3, h4, h5]
      rw [he]
      show parseStringBody ('\\' :: 'n' :: (escapeString s ++ '"' :: rest)) = _
      rw [parseStringBody.eq_def]; simp [ih]
      exact hc
    by_cases h6 : c.toNat = 12
    · have hc : Char.ofNat 12 = c := by rw [← h6, Char.ofNat_toNat]
      have he : escapeChar c = ['\\', 'f'] := by simp [escapeChar, h1, h2, h3, h4, h5, h6]
      rw [he]
      show parseStringBody ('\\' :: 'f' :: (escapeString s ++ '"' :: rest)) = _
      rw [parseStringBody.eq_def]; simp [ih]
      exact hc
    by_cases h7 : c.toNat = 13
    · have hc : Char.ofNat 13 = c := by rw [← h7, Char.ofNat_toNat]
      have he : escapeChar c = ['\\', 'r'] := by simp [escapeChar, h1, h2, h3, h4, h5, h6, h7]
      rw [he]
      show parseStringBody ('\\' :: 'r' :: (escapeString s ++ '"' :: rest)) = _
      rw [parseStringBody.eq_def]; simp [ih]
      exact hc
    by_cases h8 : c.toNat < 32
    · have hd1 : hexVal (hexDigitChar (c.toNat / 16)) = some (c.toNat / 16) :=
        hexVal_hexDigitChar _ (by omega)
      have hd2 : hexVal (hexDigitChar (c.toNat % 16)) = some (c.toNat % 16) :=
        hexVal_hexDigitChar _ (Nat.mod_lt _ (by norm_num))
      have hval : c.toNat / 16 * 16 + c.toNat % 16 = c.toNat := by omega
      have hc : Char.ofNat (c.toNat / 16 * 16 + c.toNat % 16) = c := by
        rw [hval, Char.ofNat_toNat]
      have he : escapeChar c =
          ['\\', 'u', '0', '0', hexDigitChar (c.toNat / 16), hexDigitChar (c.toNat % 16)] := by
        simp [escapeChar, h1, h2, h3, h4, h5, h6, h7, h8]
      rw [he]
      show parseStringBody ('\\' :: 'u' :: '0' :: '0' :: hexDigitChar (c.toNat / 16) ::
        hexDigitChar (c.toNat % 16) :: (escapeString s ++ '"' :: rest)) = _
      have h0 : hexVal '0' = some 0 := by decide
      rw [parseStringBody.eq_def]
      simp [h0, hd1, hd2, ih]
      exact hc
    · have he : escapeChar c = [c] := by simp [escapeChar, h1, h2, h3, h4, h5, h6, h7, h8]
      rw [he]
      show parseStringBody (c :: (escapeString s ++ '"' :: rest)) = _
      rw [parseStringBody.eq_def]
      simp [h1, h2, ih]

theorem parseJSONString_encode (s : String) (rest : List Char) :
    parseJSONString (encodeJSONString s ++ rest) = some (s.data, rest) := by
  show parseJSONString ('"' :: (escapeString s.data ++ ['"'] ++ rest)) = _
  rw [List.append_assoc]
  exact parseStringBody_escape s.data rest

set_option maxRecDepth 10000 in
theorem strip3_spec : ∀ k < 1000, k ≠ 0 →
    (stripZeros [digitChar (k / 100), digitChar (k / 10 % 10), digitChar (k % 10)] ≠ [] ∧
     (stripZeros [digitChar (k / 100), digitChar (k / 10 % 10), digitChar (k % 10)]).length ≤ 3 ∧
     (∀ c ∈ stripZeros [digitChar (k / 100), digitChar (k / 10 % 10), digitChar (k % 10)],
        c.isDigit = true) ∧
     digitsVal (stripZeros [digitChar (k / 100), digitChar (k / 10 % 10), digitChar (k % 10)]) *
       10 ^ (3 - (stripZeros [digitChar (k / 100), digitChar (k / 10 % 10),
         digitChar (k % 10)]).length) = k) := by
  decide

theorem takeWhile_append_all (p : Char → Bool) (l r : List Char)
    (hl : ∀ c ∈ l, p c = true) (hr : ∀ c, r.head? = some c → p c = false) :
    (l ++ r).takeWhile p = l ∧ (l ++ r).dropWhile p = r := by
  induction l with
  | nil =>
    simp only [List.nil_append]
    cases r with
    | nil => simp
    | cons c r' =>
      have := hr c rfl
      simp [List.takeWhile_cons, List.dropWhile_cons, this]
  | cons c l' ih =>
    have hc := hl c (List.mem_cons_self _ _)
    have ih' := ih (fun x hx => hl x (List.mem_cons_of_mem _ hx))
    simp [List.takeWhile_cons, List.dropWhile_cons, hc, ih'.1, ih'.2]

theorem parseNum_encodeNum (k : Nat) (hk : k ≤ 1000) (rest : List Char) :
    parseNum (encodeNum k ++ rbrace :: rest) = some (k, rbrace :: rest) := by
  by_cases h1 : k = 1000
  · subst h1
    show parseNum ('1' :: rbrace :: rest) = _
    simp [parseNum, List.takeWhile_cons, List.dropWhile_cons, rbrace, digitsVal]
  by_cases h0 : k = 0
  · subst h0
    show parseNum ('0' :: rbrace :: rest) = _
    simp [parseNum, List.takeWhile_cons, List.dropWhile_cons, rbrace, digitsVal]
  · obtain ⟨hne, hlen, hdig, hval⟩ := strip3_spec k (by omega) h0
    have h := takeWhile_append_all Char.isDigit
      (stripZeros [digitChar (k / 100), digitChar (k / 10 % 10), digitChar (k % 10)])
      (rbrace :: rest) hdig (by intro c hc; cases hc; decide)
    have hen : encodeNum k = '0' :: '.' ::
        stripZeros [digitChar (k / 100), digitChar (k / 10 % 10), digitChar (k % 10)] := by
      simp [encodeNum, h1, h0]
    rw [hen]
    show parseNum ('0' :: '.' ::
      (stripZeros [digitChar (k / 100), digitChar (k / 10 % 10), digitChar (k % 10)] ++
        rbrace :: rest)) = _
    have hd0 : Char.isDigit '0' = true := by decide
    have hdot : Char.isDigit '.' = false := by decide
    rw [parseNum]
    simp only [List.takeWhile_cons, List.dropWhile_cons, hd0, hdot, if_true, if_false,
      Bool.false_eq_true, List.head?_cons, List.tail_cons, h.1, h.2]
    simp [List.isEmpty_iff, hne, hlen, digitsVal]
    exact hval

theorem mk_data (s : String) : String.mk s.data = s := rfl

theorem expectLit_single (c : Char) (rest : List Char) :
    expectLit [c] (c :: rest) = some rest := by simp [expectLit]

theorem parsePred_encodePred (p : TM.Prediction) (hk : p.confidence ≤ 1000) (rest : List Char) :
    parsePred (encodePred p ++ rest) = some (p, rest) := by
  have h1 : encodePred p ++ rest =
      (lbrace :: "\"name\":".data) ++ (encodeJSONString p.name ++
        (",\"confidence\":".data ++ (encodeNum p.confidence ++ rbrace :: rest))) := by
    simp [encodePred, List.append_assoc]
  rw [parsePred, h1, expectLit_append]
  simp only [Option.bind_eq_bind', Option.some_bind']
  rw [parseJSONString_encode]
  simp only [Option.bind_eq_bind', Option.some_bind']
  rw [expectLit_append]
  simp only [Option.bind_eq_bind', Option.some_bind']
  rw [parseNum_encodeNum _ hk]
  simp only [Option.bind_eq_bind', Option.some_bind']
  rw [expectLit_single]
  simp [mk_data]

theorem parsePredsAux_encodePreds (ps : List TM.Prediction) :
    ∀ (fuel : Nat) (rest : List Char), (∀ p ∈ ps, p.confidence ≤ 1000) →
    ps.length ≤ fuel →
    parsePredsAux fuel (encodePreds ps ++ ']' :: rest) = some (ps, rest) := by
  induction ps with
  | nil =>
    intro fuel rest _ _
    show parsePredsAux fuel (']' :: rest) = _
    rw [parsePredsAux.eq_def]
    simp
  | cons p ps ih =>
    intro fuel rest hconf hfuel
    have hp : p.confidence ≤ 1000 := hconf p (List.mem_cons_self _ _)
    obtain ⟨f, rfl⟩ : ∃ f, fuel = f + 1 := ⟨fuel - 1, by simp at hfuel; omega⟩
    cases ps with
    | nil =>
      have hsh : encodePreds [p] ++ ']' :: rest =
          lbrace :: ("\"name\":".data ++ encodeJSONString p.name ++
            ",\"confidence\":".data ++ encodeNum p.confidence ++ [rbrace] ++ ']' :: rest) := by
        simp [encodePreds, encodePred]
      rw [hsh, parsePredsAux.eq_def]
      have hlb : (lbrace = ']') = False := by simp [lbrace]
      simp only [hlb, if_false]
      rw [← hsh]
      have h2 : encodePreds [p] ++ ']' :: rest = encodePred p ++ ']' :: rest := by
        simp [encodePreds]
      rw [h2, parsePred_encodePred p hp]
      simp
    | cons q t =>
      have hsh : encodePreds (p :: q :: t) ++ ']' :: rest =
          lbrace :: ("\"name\":".data ++ encodeJSONString p.name ++
            ",\"confidence\":".data ++ encodeNum p.confidence ++ [rbrace] ++
            ',' :: (encodePreds (q :: t) ++ ']' :: rest)) := by
        simp [encodePreds, encodePred]
      have h2 : encodePreds (p :: q :: t) ++ ']' :: rest =
          encodePred p ++ ',' :: (encodePreds (q :: t) ++ ']' :: rest) := by
        simp [encodePreds]
      rw [hsh, parsePredsAux.eq_def]
      have hlb : (lbrace = ']') = False := by simp [lbrace]
      simp only [hlb, if_false]
      rw [← hsh, h2, parsePred_encodePred p hp]
      have hrec := ih f rest (fun x hx => hconf x (List.mem_cons_of_mem _ hx))
        (by simp at hfuel ⊢; omega)
      simp [hrec]

theorem fromString_name (m : MType) : MType.fromString m.name = some m := by
  cases m <;> rfl

theorem length_le_encodePreds (ps : List TM.Prediction) :
    ps.length ≤ (encodePreds ps).length := by
  induction ps with
  | nil => simp [encodePreds]
  | cons p t ih =>
    cases t with
    | nil => simp [encodePreds, encodePred]
    | cons q t' =>
      have : encodePreds (p :: q :: t') = encodePred p ++ ',' :: encodePreds (q :: t') := rfl
      rw [this]
      simp only [List.length_cons, List.length_append, List.length_cons]
      have h1 : 1 ≤ (encodePred p).length := by simp [encodePred]
      simp only [List.length_cons] at ih ⊢
      omega

theorem decodeMsg_encodeMsg (m : PredictionsMsg)
    (hconf : ∀ p ∈ m.predictions, p.confidence ≤ 1000) :
    decodeMsg (encodeMsg m) = some m := by
  have hsh : encodeMsg m =
      (lbrace :: "\"type\":\"predictions\",\"modelType\":".data) ++
      (encodeJSONString m.modelType.name ++
        (",\"predictions\":[".data ++ (encodePreds m.predictions ++ ']' :: [rbrace]))) := by
    simp [encodeMsg, List.append_assoc]
  rw [decodeMsg, hsh, expectLit_append]
  simp only [Option.bind_eq_bind', Option.some_bind']
  rw [parseJSONString_encode]
  simp only [Option.bind_eq_bind', Option.some_bind']
  rw [mk_data, fromString_name]
  simp only [Option.bind_eq_bind', Option.some_bind']
  rw [expectLit_append]
  simp only [Option.bind_eq_bind', Option.some_bind']
  rw [parsePredsAux_encodePreds m.predictions _ _ hconf
    (le_trans (length_le_encodePreds _) (by simp))]
  simp only [Option.bind_eq_bind', Option.some_bind']
  rw [expectLit_single]
  simp

end Wire

/-! ## Messaging bridge

Simx-app side: `src/extension.ts` (`src/unnamed/part_001`).
Extension side: `src/custom.ts`. -/

namespace Bridge

/-- The fixed channel identifier (both sides). -/
def SIMX_CHANNEL : String := "eanders-ms/pxt-teachablemachine"

/-- `ExtensionMessage` of `src/extension.ts`: the handshake sub-protocol. -/
inductive ExtMsg where
  | ping
  | pong
  | hello
  | init
deriving DecidableEq, Repr

/-- `receiveExtensionMessage` (simx-app side): the `switch (msg.type)` has
cases for `ping` (reply `pong`), `pong` and `init` (log only); `hello` matches
no case and falls through with no action. The result is the list of messages
posted via `postExtensionMessage`. -/
def receiveExtensionMessage : ExtMsg → List ExtMsg
  | ExtMsg.ping => [ExtMsg.pong]
  | ExtMsg.pong => []
  | ExtMsg.init => []
  | ExtMsg.hello => []

/-- The `type` tag of a handshake message, as serialized. -/
def ExtMsg.tag : ExtMsg → String
  | ExtMsg.ping => "ping"
  | ExtMsg.pong => "pong"
  | ExtMsg.hello => "hello"
  | ExtMsg.init => "init"

/-- `JSON.stringify({type: "..."})` for a handshake message. -/
def encodeExtMsg (m : ExtMsg) : List Char :=
  Wire.lbrace :: "\"type\":".data ++ Wire.encodeJSONString m.tag ++ [Wire.rbrace]

/-- `JSON.parse` of a handshake payload followed by the `msg.type` dispatch,
restricted to the handshake grammar; anything else yields `none` (and, in
`receiveSimControlMessage`, no handler runs). -/
def decodeExtMsg (s : List Char) : Option ExtMsg := do
  let l ← Wire.expectLit (Wire.lbrace :: "\"type\":".data) s
  let (t, l) ← Wire.parseJSONString l
  let l ← Wire.expectLit [Wire.rbrace] l
  if l = [] then
    match String.mk t with
    | "ping" => some ExtMsg.ping
    | "pong" => some ExtMsg.pong
    | "hello" => some ExtMsg.hello
    | "init" => some ExtMsg.init
    | _ => none
  else none

/-- `SimulatorControlMessage` of `src/types.ts` (`src/unnamed/part_002`):
the wire Frame. `data` is the UTF-8 payload, modelled as its decoded text;
`srcFrameIndex` is optional in `SimulatorBroadcastMessage`. -/
structure SimulatorControlMessage where
  channel : String
  data : List Char
  srcFrameIndex : Option Int
deriving DecidableEq, Repr

/-- Outcome of `receiveSimControlMessage`. -/
inductive RecvResult where
  /-- Dropped by the `srcFrameIndex` / `channel` filters: the payload is never
  decoded and no handler is invoked. -/
  | filtered
  /-- Passed the filters but the decoded payload was not a handshake protocol
  message: no handler is invoked. -/
  | notDispatched
  /-- Dispatched to `receiveExtensionMessage`, with its outbound replies. -/
  | dispatched (m : ExtMsg) (outbound : List ExtMsg)
deriving DecidableEq, Repr

/-- `receiveSimControlMessage`: `srcFrameIndex ?? -1` must equal `0` and
`channel` must equal `SIMX_CHANNEL`, otherwise the Frame is ignored; only then
is the payload decoded and dispatched. -/
def receiveSimControlMessage (simmsg : SimulatorControlMessage) : RecvResult :=
  let srcFrameIndex := simmsg.srcFrameIndex.getD (-1)
  if srcFrameIndex ≠ 0 then RecvResult.filtered
  else if simmsg.channel ≠ SIMX_CHANNEL then RecvResult.filtered
  else
    match decodeExtMsg simmsg.data with
    | none => RecvResult.notDispatched
    | some m => RecvResult.dispatched m (receiveExtensionMessage m)

/-- Inner messages the extension side (`src/custom.ts`) can receive: the
handshake tags plus `predictions`; `other` stands for any unknown tag. -/
inductive SimxMsg where
  | hello
  | ping
  | pong
  | init
  | predictions (modelType : String) (preds : List Prediction)
  | other
deriving DecidableEq, Repr

/-- A prediction handler invocation `handler(name, confidence, model)` fanned
out by the emit functions of `src/custom.ts`. -/
structure HandlerCall where
  kind : String
  name : String
  confidence : Nat
deriving DecidableEq, Repr

/-- `handleSimxMessage` of `src/custom.ts`: `hello` → post `init`; `ping` →
post `pong`; `pong` → nothing; `predictions` → fan out to the kind-specific
handler lists (no outbound Frame); `init` and unknown tags match no case →
nothing. Returns (posted messages, handler invocations). -/
def handleSimxMessage : SimxMsg → List SimxMsg × List HandlerCall
  | SimxMsg.hello => ([SimxMsg.init], [])
  | SimxMsg.ping => ([SimxMsg.pong], [])
  | SimxMsg.pong => ([], [])
  | SimxMsg.predictions mt preds =>
    if mt = "pose" ∨ mt = "image" ∨ mt = "sound" then
      ([], preds.map (fun p => ⟨mt, p.name, p.confidence⟩))
    else ([], [])
  | SimxMsg.init => ([], [])
  | SimxMsg.other => ([], [])

theorem decodeExtMsg_encodeExtMsg (m : ExtMsg) : decodeExtMsg (encodeExtMsg m) = some m := by
  have hsh : encodeExtMsg m = (Wire.lbrace :: "\"type\":".data) ++
      (Wire.encodeJSONString m.tag ++ [Wire.rbrace]) := by
    simp [encodeExtMsg, List.append_assoc]
  rw [decodeExtMsg, hsh, Wire.expectLit_append]
  simp only [Option.bind_eq_bind', Option.some_bind']
  rw [Wire.parseJSONString_encode]
  simp only [Option.bind_eq_bind', Option.some_bind']
  rw [show ([Wire.rbrace] : List Char) = Wire.rbrace :: [] from rfl, Wire.expectLit_single]
  simp only [Option.bind_eq_bind', Option.some_bind']
  rw [Wire.mk_data]
  cases m <;> rfl

end Bridge

/-! ## App model list (`src/simx/src/App.tsx`)

`addItem` creates the list entry whose `id` keys the UI list (and, in the
refactored components, the registry); the `ModelItem` load effect derives the
displayed model name from the source URL. -/

namespace App

/-- `ListItem` of `App.tsx`: `{id, url}`. -/
structure AppListItem where
  id : String
  url : String
deriving DecidableEq, Repr

/-- A JS whitespace character (the ASCII ones; the check below only ever sees
URL text). -/
def jsWhitespace (c : Char) : Bool :=
  c = ' ' || c = '\t' || c = '\n' || c = '\r' || c.toNat = 11 || c.toNat = 12

/-- `!url.trim()`: the url is empty or all whitespace. -/
def trimmedEmpty (url : String) : Bool := url.data.all jsWhitespace

/-- `addItem(url)`: rejects blank urls (`if (!url.trim()) return`), otherwise
creates the item with `id = "item-" + nextId` and increments `nextId`. -/
def addItem (nextId : Nat) (url : String) : Option AppListItem :=
  if trimmedEmpty url then none
  else some ⟨"item-" ++ toString nextId, url⟩

/-- Skip everything up to and including the first `"://"`. -/
def dropScheme : List Char → List Char
  | [] => []
  | ':' :: '/' :: '/' :: rest => rest
  | _ :: rest => dropScheme rest

/-- `new URL(url).pathname` for an absolute http(s) URL: the part from the
first `/` after the host, up to any query or fragment. -/
def urlPathname (url : String) : List Char :=
  ((dropScheme url.data).dropWhile (· ≠ '/')).takeWhile
    (fun c => c ≠ '?' ∧ c ≠ '#')

/-- `pathname.slice(0, -1)` when it ends with a slash. -/
def stripTrailingSlash (p : List Char) : List Char :=
  if p.getLast? = some '/' then p.dropLast else p

/-- The characters after the final `/`, i.e. `pathname.split("/").pop()`. -/
def lastSegment (p : List Char) : List Char :=
  (p.reverse.takeWhile (· ≠ '/')).reverse

/-- The model load effect of `ModelItem`: strip a trailing slash from the
pathname, take the last segment, defaulting to `"Untitled Model"` when empty
(`pathname.split("/").pop() || "Untitled Model"`). This value becomes the
displayed `modelName`. -/
def modelName (url : String) : String :=
  let seg := lastSegment (stripTrailingSlash (urlPathname url))
  if seg = [] then "Untitled Model" else String.mk seg

end App

namespace ModelManager

theorem find?_map_update (l : List (String × ModelInstance)) (id : String)
    (c : Capability) (inst : ModelInstance)
    (h : (l.find? (fun p => p.1 = id)).map (·.2) = some inst) :
    ((l.map (fun p => if p.1 = id then (p.1, { p.2 with controls := c }) else p)).find?
      (fun p => p.1 = id)).map (·.2) = some { inst with controls := c } := by
  induction l with
  | nil => simp at h
  | cons p rest ih =>
    simp only [List.map_cons]
    by_cases hp : p.1 = id
    · rw [List.find?_cons_of_pos _ (by simp [hp])] at h
      simp only [Option.map_some', Option.some.injEq] at h
      rw [if_pos hp, List.find?_cons_of_pos _ (by simp [hp])]
      simp [h]
    · rw [List.find?_cons_of_neg _ (by simp [hp])] at h
      rw [if_neg hp, List.find?_cons_of_neg _ (by simp [hp])]
      exact ih h

theorem getModel_updateControls_self (m : ModelManager) (id : String)
    (inst : ModelInstance) (c : Capability) (h : m.getModel id = some inst) :
    (m.updateControls id c).getModel id = some { inst with controls := c } :=
  find?_map_update m.models id c inst h

theorem map_fst_update (l : List (String × ModelInstance)) (id : String)
    (c : Capability) :
    (l.map (fun p => if p.1 = id then (p.1, { p.2 with controls := c }) else p)).map (·.1) =
      l.map (·.1) := by
  induction l with
  | nil => simp
  | cons p rest ih =>
    by_cases hp : p.1 = id <;> simp [hp, ih]

theorem listIds_updateControls (m : ModelManager) (id : String) (c : Capability) :
    (m.updateControls id c).listIds = m.listIds :=
  map_fst_update m.models id c

end ModelManager

/-! ## Test fixtures used by witness theorems -/

/-- A loaded, running, well-behaved capability. -/
def capRunning : Capability :=
  { loaded := true, running := true, startThrows := false, stopThrows := false,
    startCalls := 0, stopCalls := 0 }

/-- A loaded, idle, well-behaved capability. -/
def capIdle : Capability :=
  { loaded := true, running := false, startThrows := false, stopThrows := false,
    startCalls := 0, stopCalls := 0 }

/-- A loaded, running capability whose `stop()` throws. -/
def capStopThrows : Capability :=
  { loaded := true, running := true, startThrows := false, stopThrows := true,
    startCalls := 0, stopCalls := 0 }

def itemM1 : ListItem :=
  { id := "m1", modelType := "image", url := "https://example.com/models/m1/" }

def itemM2 : ListItem :=
  { id := "m2", modelType := "pose", url := "https://example.com/models/m2/" }

/-- A manager with one loaded, running entry. -/
def mgrRunning : ModelManager :=
  { models := [("m1", { item := itemM1, controls := capRunning })],
    hasLoadCallback := true, hasDeleteCallback := true }

/-- A manager with one loaded, idle entry. -/
def mgrIdle : ModelManager :=
  { models := [("m1", { item := itemM1, controls := capIdle })],
    hasLoadCallback := true, hasDeleteCallback := true }

/-- A manager with two running entries of which the first one's `stop()`
throws. -/
def mgrTwoRunning : ModelManager :=
  { models := [("m1", { item := itemM1, controls := capStopThrows }),
               ("m2", { item := itemM2, controls := capRunning })],
    hasLoadCallback := true, hasDeleteCallback := true }

/-- A small prediction batch. -/
def sampleBatch : Wire.PredictionsMsg :=
  { modelType := Wire.MType.image,
    predictions := [⟨"cat", 123⟩, ⟨"dog", 877⟩, ⟨"none", 0⟩] }

/-- A loaded, running component holding two labels with live confidences. -/
def compRunning : Component :=
  { modelLoaded := true, modelRef := true, pendingLoad := false, running := true,
    webcam := true, animationFrame := true, canvasContainer := true,
    startFails := false, labels := [⟨"a", 500⟩, ⟨"b", 250⟩],
    pendingClear := false }

/-! ## Claim theorems -/

/-- C1: `startModel(id)` returns `false` when `id` is absent from the
registry; returns `false` when the entry's `isLoaded()` is `false`; returns
`true` leaving the manager (in particular the capability's invocation count)
unchanged when `isRunning()` is already `true`; otherwise invokes
`capability.start()` exactly once and returns `true`, or `false` when the
invocation throws. -/
theorem c1_startModel_spec (m : ModelManager) (id : String) :
    (m.getModel id = none → m.startModel id = (m, false)) ∧
    (∀ inst, m.getModel id = some inst → inst.controls.loaded = false →
      m.startModel id = (m, false)) ∧
    (∀ inst, m.getModel id = some inst → inst.controls.loaded = true →
      inst.controls.running = true → m.startModel id = (m, true)) ∧
    (∀ inst, m.getModel id = some inst → inst.controls.loaded = true →
      inst.controls.running = false →
      m.startModel id =
        (m.updateControls id inst.controls.startRun.1, !inst.controls.startThrows) ∧
      inst.controls.startRun.1.startCalls = inst.controls.startCalls + 1) := by
  refine ⟨?_, ?_, ?_, ?_⟩
  · intro h; simp [ModelManager.startModel, h]
  · intro inst h hl; simp [ModelManager.startModel, h, hl]
  · intro inst h hl hr; simp [ModelManager.startModel, h, hl, hr]
  · intro inst h hl hr
    constructor
    · simp [ModelManager.startModel, h, hl, hr, Capability.startRun]
      by_cases ht : inst.controls.startThrows <;> simp [ht]
    · simp [Capability.startRun]
      by_cases ht : inst.controls.startThrows <;> simp [ht]

/-- C1 witness: on a registry with the single loaded and running entry `"m1"`,
`startModel "m1"` reports success and leaves the manager unchanged. -/
theorem c1_startModel_spec_witness :
    mgrRunning.startModel "m1" = (mgrRunning, true) :=
  (c1_startModel_spec mgrRunning "m1").2.2.1
    { item := itemM1, controls := capRunning } rfl rfl rfl

/-- C3: a Frame whose `srcFrameIndex` differs from `0` (including an absent
one) or whose `channel` differs from the fixed channel id is dropped by
`receiveSimControlMessage` before its payload is decoded: no inner-message
handler is ever invoked for it. -/
theorem c3_frame_filter_total (f : Bridge.SimulatorControlMessage)
    (h : f.srcFrameIndex ≠ some 0 ∨ f.channel ≠ Bridge.SIMX_CHANNEL) :
    Bridge.receiveSimControlMessage f = Bridge.RecvResult.filtered := by
  unfold Bridge.receiveSimControlMessage
  rcases h with h | h
  · have : f.srcFrameIndex.getD (-1) ≠ 0 := by
      cases hf : f.srcFrameIndex with
      | none => simp
      | some n => simp; rw [hf] at h; intro he; exact h (by rw [he])
    simp [this]
  · by_cases hsrc : f.srcFrameIndex.getD (-1) ≠ 0
    · simp [hsrc]
    · simp at hsrc; simp [hsrc, h]

/-- C3 witness: a ping Frame on the right channel but from `srcFrameIndex = 1`
is filtered. -/
theorem c3_frame_filter_total_witness :
    Bridge.receiveSimControlMessage
      { channel := Bridge.SIMX_CHANNEL,
        data := Bridge.encodeExtMsg Bridge.ExtMsg.ping,
        srcFrameIndex := some 1 } = Bridge.RecvResult.filtered :=
  c3_frame_filter_total _ (Or.inl (by decide))

/-- C4 counterexample: the simx-app peer (`receiveExtensionMessage` in
`src/extension.ts`) sends no reply at all on receiving `hello` — its switch
has no `hello` case — contradicting the claim that every peer replies with
exactly one `init`. -/
theorem c4_hello_no_reply :
    Bridge.receiveExtensionMessage Bridge.ExtMsg.hello = [] ∧
    Bridge.receiveExtensionMessage Bridge.ExtMsg.hello ≠ [Bridge.ExtMsg.init] := by
  exact ⟨rfl, by decide⟩

/-- C4 amended: the extension peer (`handleSimxMessage` in `src/custom.ts`)
replies with exactly one `init` to `hello` and one `pong` to `ping`, and sends
nothing on `init`/`pong`; the simx-app peer replies with exactly one `pong` to
`ping`, sends nothing on `init`/`pong`, and ignores `hello`. A well-formed
ping Frame on the fixed channel from `srcFrameIndex 0` is dispatched with
exactly one outbound `pong`. -/
theorem c4_handshake_replies :
    (Bridge.handleSimxMessage Bridge.SimxMsg.hello).1 = [Bridge.SimxMsg.init] ∧
    (Bridge.handleSimxMessage Bridge.SimxMsg.ping).1 = [Bridge.SimxMsg.pong] ∧
    (Bridge.handleSimxMessage Bridge.SimxMsg.pong).1 = [] ∧
    (Bridge.handleSimxMessage Bridge.SimxMsg.init).1 = [] ∧
    Bridge.receiveExtensionMessage Bridge.ExtMsg.ping = [Bridge.ExtMsg.pong] ∧
    Bridge.receiveExtensionMessage Bridge.ExtMsg.pong = [] ∧
    Bridge.receiveExtensionMessage Bridge.ExtMsg.init = [] ∧
    Bridge.receiveExtensionMessage Bridge.ExtMsg.hello = [] ∧
    Bridge.receiveSimControlMessage
      { channel := Bridge.SIMX_CHANNEL,
        data := Bridge.encodeExtMsg Bridge.ExtMsg.ping,
        srcFrameIndex := some 0 } =
      Bridge.RecvResult.dispatched Bridge.ExtMsg.ping [Bridge.ExtMsg.pong] := by
  refine ⟨rfl, rfl, rfl, rfl, rfl, rfl, rfl, rfl, ?_⟩
  rw [Bridge.receiveSimControlMessage]
  simp only [Bridge.decodeExtMsg_encodeExtMsg]
  rfl

/-- C10: the facade's `loadModel(url)` resolves to `true` for every url and
every manager state — also when no load-request callback is registered — and
never mutates the registry; its only effect is firing the registered
callback. -/
theorem c10_loadModel_always_true (m : ModelManager) (url : String) :
    (m.loadModel url).2.1 = true ∧ (m.loadModel url).1 = m ∧
    (m.loadModel url).2.2 =
      (if m.hasLoadCallback then [MEvent.loadRequested url] else []) := by
  simp [ModelManager.loadModel]

/-- C2 counterexample: on a registry holding the single idle entry `"m1"`,
`deleteModel "m1"` succeeds and fires the delete-intent callback, but the entry
is still present in the map afterwards — `"m1"` is not absent from `list()` as
the claim states; removal is deferred to the delete-request subscriber. -/
theorem c2_delete_leaves_entry :
    (mgrIdle.deleteModel "m1").2 =
      Except.ok (true, [MEvent.deleteRequested "m1"]) ∧
    (mgrIdle.deleteModel "m1").1.listIds = ["m1"] ∧
    (mgrIdle.deleteModel "m1").1.getModel "m1" ≠ none := by
  refine ⟨rfl, rfl, by decide⟩

/-- C2 amended: for every registered id (with a non-throwing `stop()`),
`deleteModel(id)` stops the model if it was running (so `isRunning(id)` is
`false` afterwards), and signals the delete-intent callback — an event distinct
from the membership-change listener notification, which is not emitted — but
does not itself remove the entry from the map: the registry ids are unchanged,
removal being the delete-intent subscriber's responsibility. -/
theorem c2_deleteModel_spec (m : ModelManager) (id : String) (inst : ModelInstance)
    (hfound : m.getModel id = some inst)
    (hnothrow : inst.controls.stopThrows = false) :
    (m.deleteModel id).2 = Except.ok (true,
        if m.hasDeleteCallback then [MEvent.deleteRequested id] else []) ∧
    MEvent.listenersNotified ∉
      (if m.hasDeleteCallback then [MEvent.deleteRequested id] else []) ∧
    (m.deleteModel id).1.isRunning id = false ∧
    (m.deleteModel id).1.listIds = m.listIds := by
  have hnotmem : MEvent.listenersNotified ∉
      (if m.hasDeleteCallback then [MEvent.deleteRequested id] else []) := by
    by_cases hcb : m.hasDeleteCallback <;> simp [hcb]
  by_cases hr : inst.controls.running
  · have hstop2 : inst.controls.stopRun.2 = true := by
      simp [Capability.stopRun, hnothrow]
    have hstoprun : inst.controls.stopRun.1.running = false := by
      simp [Capability.stopRun, hnothrow]
    have hd : m.deleteModel id = (m.updateControls id inst.controls.stopRun.1,
        Except.ok (true,
          if m.hasDeleteCallback then [MEvent.deleteRequested id] else [])) := by
      unfold ModelManager.deleteModel
      rw [hfound]
      simp [hr, hstop2]
    refine ⟨by rw [hd], hnotmem, ?_, ?_⟩
    · rw [hd]
      unfold ModelManager.isRunning
      rw [ModelManager.getModel_updateControls_self m id inst _ hfound]
      exact hstoprun
    · rw [hd]
      exact ModelManager.listIds_updateControls m id _
  · have hd : m.deleteModel id = (m, Except.ok (true,
        if m.hasDeleteCallback then [MEvent.deleteRequested id] else [])) := by
      unfold ModelManager.deleteModel
      rw [hfound]
      simp [hr]
    refine ⟨by rw [hd], hnotmem, ?_, by rw [hd]⟩
    rw [hd]
    unfold ModelManager.isRunning
    rw [hfound]
    simpa using hr

/-- C2 witness: deleting the running entry `"m1"` stops it, fires the
delete-intent callback and keeps the registry ids unchanged. -/
theorem c2_deleteModel_spec_witness :
    (mgrRunning.deleteModel "m1").2 =
      Except.ok (true, [MEvent.deleteRequested "m1"]) ∧
    (mgrRunning.deleteModel "m1").1.isRunning "m1" = false ∧
    (mgrRunning.deleteModel "m1").1.listIds = mgrRunning.listIds := by
  have h := c2_deleteModel_spec mgrRunning "m1"
    { item := itemM1, controls := capRunning } rfl rfl
  exact ⟨h.1, h.2.2.1, h.2.2.2⟩

/-- C5: for every prediction batch whose confidence values are 3-decimal
values in `[0, 1]` (at most 1000 thousandths), decoding the encoded wire
payload — UTF-8 JSON text serialization, then parse — yields the original
batch: same label names, same confidence values, in the same order. -/
theorem c5_wire_roundtrip (b : Wire.PredictionsMsg)
    (h : ∀ p ∈ b.predictions, p.confidence ≤ 1000) :
    Wire.decodeWire (Wire.encodeWire b) = some b := by
  show Wire.decodeMsg (String.mk (Wire.encodeMsg b)).data = some b
  exact Wire.decodeMsg_encodeMsg b h

/-- C5 witness: the concrete batch `sampleBatch` round-trips. -/
theorem c5_wire_roundtrip_witness :
    Wire.decodeWire (Wire.encodeWire sampleBatch) = some sampleBatch :=
  c5_wire_roundtrip sampleBatch (by decide)

/-- C6: the claimed zeroed final emission fails in the code, at a running
component holding the labels `a ↦ 0.5`, `b ↦ 0.25`: `handleStop` dutifully
clears the running flag, cancels the pending reschedule, releases the webcam
and emits exactly one final batch — but that batch carries the held pre-stop
confidences, not zeros, because `sendPredictions` reads `labelsRef.current`
before React runs the queued `setLabels` updater that zeroes it. The zeroed
label set (names and order preserved) exists only from the subsequent
re-render on, so it is never what downstream consumers receive. The code
contradicts the evident intent — the updater syncs `labelsRef.current`
precisely so the next line would send cleared values, and the spec's stated
purpose is a clean stopped signal "rather than stale numbers". -/
theorem c6_stale_final_batch :
    (compRunning.handleStop).2 = [[⟨"a", 500⟩, ⟨"b", 250⟩]] ∧
    (compRunning.handleStop).2 ≠ [[⟨"a", 0⟩, ⟨"b", 0⟩]] ∧
    (compRunning.handleStop).1.running = false ∧
    (compRunning.handleStop).1.animationFrame = false ∧
    (compRunning.handleStop).1.webcam = false ∧
    (compRunning.handleStop).1.pendingClear = true ∧
    (Component.rerender (compRunning.handleStop).1).labels = [⟨"a", 0⟩, ⟨"b", 0⟩] := by
  refine ⟨rfl, by decide, rfl, rfl, rfl, rfl, rfl⟩

/-- C7 counterexample: for the source URL
`https://teachablemachine.withgoogle.com/models/abc123/`, the last non-empty
path segment with the trailing slash stripped is `"abc123"`, but `addItem`
keys the created entry with the counter id `"item-1"`, not `"abc123"` — the
registry key does not equal the URL-derived segment. -/
theorem c7_id_is_counter_not_url_segment :
    App.addItem 1 "https://teachablemachine.withgoogle.com/models/abc123/" =
      some { id := "item-1",
             url := "https://teachablemachine.withgoogle.com/models/abc123/" } ∧
    App.modelName "https://teachablemachine.withgoogle.com/models/abc123/" = "abc123" ∧
    ("item-1" : String) ≠ "abc123" := by
  refine ⟨by decide, by decide, by decide⟩

/-- C7 amended: the entry id used as the list/registry key is the sequential
counter value `"item-" + nextId` for every non-blank source URL; the last
non-empty path segment of the URL (trailing slash stripped) becomes only the
displayed model name, as on the example URL. -/
theorem c7_addItem_id (nextId : Nat) (url : String)
    (h : App.trimmedEmpty url = false) :
    App.addItem nextId url =
      some { id := "item-" ++ toString nextId, url := url } ∧
    App.modelName "https://teachablemachine.withgoogle.com/models/abc123/" = "abc123" := by
  refine ⟨?_, by decide⟩
  simp [App.addItem, h]

/-- C7 witness: adding a model with counter 7 yields the key `"item-7"`. -/
theorem c7_addItem_id_witness :
    App.addItem 7 "https://teachablemachine.withgoogle.com/models/xyz/" =
      some { id := "item-7",
             url := "https://teachablemachine.withgoogle.com/models/xyz/" } :=
  (c7_addItem_id 7 "https://teachablemachine.withgoogle.com/models/xyz/" (by decide)).1

/-- C8: `stopAllModels` invokes `stop()` on every entry whose capability
reports running — the invocation count of each such entry rises by one, also
when another entry's `stop()` throws — and afterwards every running entry with
a non-throwing `stop()` reports `isRunning() = false`. The operation is a
total function on the manager state: no error reaches the caller. -/
theorem c8_stopAll_spec (m : ModelManager) :
    ∀ k inst, (k, inst) ∈ m.models → inst.controls.running = true →
      ((k, { inst with controls := inst.controls.stopRun.1 }) ∈
        (m.stopAllModels).models ∧
       inst.controls.stopRun.1.stopCalls = inst.controls.stopCalls + 1 ∧
       (inst.controls.stopThrows = false → inst.controls.stopRun.1.running = false)) := by
  intro k inst hmem hrun
  refine ⟨?_, ?_, ?_⟩
  · unfold ModelManager.stopAllModels
    have h := List.mem_map_of_mem
      (fun p => if p.2.controls.running then
        (p.1, { p.2 with controls := p.2.controls.stopRun.1 }) else p) hmem
    simpa [hrun] using h
  · simp only [Capability.stopRun]
    by_cases ht : inst.controls.stopThrows <;> simp [ht]
  · intro ht
    simp [Capability.stopRun, ht]

/-- C8 witness: with `"m1"` running but throwing on `stop()` and `"m2"`
running normally, `stopAllModels` still invokes `stop()` on both — `"m2"`
ends up stopped, `"m1"`'s call count still rises. -/
theorem c8_stopAll_spec_witness :
    ("m2", { item := itemM2,
             controls := { capRunning with stopCalls := 1, running := false } }) ∈
      (mgrTwoRunning.stopAllModels).models ∧
    ("m1", { item := itemM1, controls := { capStopThrows with stopCalls := 1 } }) ∈
      (mgrTwoRunning.stopAllModels).models := by
  have h2 := c8_stopAll_spec mgrTwoRunning "m2"
    { item := itemM2, controls := capRunning } (by decide) rfl
  have h1 := c8_stopAll_spec mgrTwoRunning "m1"
    { item := itemM1, controls := capStopThrows } (by decide) rfl
  exact ⟨h2.1, h1.1⟩

/-- C9 counterexample: the load effect marks `modelLoaded` before the model
ref is set, and `handleStart` checks only `modelLoaded` — so a direct UI start
during the in-flight load yields `isRunning() = true` with
`isLoaded() = false`, violating the `running ⇒ loaded` invariant as claimed
for every operation. -/
theorem c9_running_without_loaded :
    Component.isRunning (Component.handleStart (Component.loadBegin Component.init)) = true ∧
    Component.isLoaded (Component.handleStart (Component.loadBegin Component.init)) = false := by
  decide

/-- C9 amended: along every operation sequence from the initial component
state in which starts are mediated by the manager's `startModel` (which checks
`isLoaded()`), the `running ⇒ loaded` invariant holds — including stop and
load-failure paths. -/
theorem c9_running_implies_loaded (ops : List Component.Op)
    (hops : Component.ManagerMediated ops)
    (hrun : (Component.run Component.init ops).running = true) :
    Component.isLoaded (Component.run Component.init ops) = true := by
  have h := Component.inv_run Component.init ops hops Component.inv_init
  unfold Component.Inv Component.invB at h
  rw [hrun] at h
  simp only [Bool.not_true, Bool.false_or, Bool.and_eq_true] at h
  unfold Component.isLoaded
  simp [h.1.1.1, h.1.1.2]

/-- C9 witness: load, load-success, then a manager-mediated start leaves the
component running and loaded. -/
theorem c9_running_implies_loaded_witness :
    (Component.run Component.init
      [Component.Op.loadBegin, Component.Op.loadSuccess ["a"], Component.Op.mgrStart]).running
        = true ∧
    Component.isLoaded (Component.run Component.init
      [Component.Op.loadBegin, Component.Op.loadSuccess ["a"], Component.Op.mgrStart]) = true := by
  refine ⟨rfl, ?_⟩
  exact c9_running_implies_loaded _
    (by show Component.Op.uiStart ∉ _; decide) rfl

end TM
